import Mathlib

/-!
Shallow embedding of the multi-context `BookmarkManager` of the
contextual-bookmarks extension (src/bookmarkManager.ts, multi-context
variant).  JavaScript arrays become `List`, the storage object becomes an
association list with unique keys (JS objects cannot hold duplicate keys;
`setCtx` replaces the first binding, as JS assignment does for the unique
binding), `findIndex` becomes an `Int`-valued search returning -1 when
absent, and JS out-of-range array reads (`undefined`) become `none`.
-/

set_option autoImplicit false

namespace ContextualBookmarks

/-- src/bookmark.ts: `interface Bookmark { id; fsPath; lineNumber; label }`.
`lineNumber` is 1-based; it is mutated by reconciliation, so we keep it as an
unbounded `Int` exactly as JS numbers behave on these small values. -/
structure Bookmark where
  id : String
  fsPath : String
  lineNumber : Int
  label : String
deriving DecidableEq, Repr

/-- `interface BookmarkStorage { [contextId: string]: Bookmark[] }`,
embedded as an association list from context id to bookmark sequence. -/
abbrev Storage := List (String × List Bookmark)

/-- Reading `storage[k]`: first binding of key `k`, `none` when absent
(JS `undefined`; note an empty array is truthy, so `!storage[k]` in the
source tests exactly key absence). -/
def lookupCtx (s : Storage) (k : String) : Option (List Bookmark) :=
  match s with
  | [] => none
  | (k', v) :: rest => if k' = k then some v else lookupCtx rest k

/-- Writing `storage[k] = v`: replace the (unique) binding of `k`, or append
a new binding when `k` is absent. -/
def setCtx (s : Storage) (k : String) (v : List Bookmark) : Storage :=
  match s with
  | [] => [(k, v)]
  | (k', v') :: rest => if k' = k then (k, v) :: rest else (k', v') :: setCtx rest k v

/-- `delete storage[k]`. -/
def delCtx (s : Storage) (k : String) : Storage :=
  s.filter (fun p => p.1 ≠ k)

def DEFAULT_CONTEXT : String := "default"

/-- The mutable fields of `BookmarkManager`: `storage`, `activeContextId`,
`currentBookmarkIndex` (the navigation cursor, -1 when unset). -/
structure ManagerState where
  storage : Storage
  activeContextId : String
  currentBookmarkIndex : Int
deriving DecidableEq, Repr

/-- JS `Array.prototype.findIndex`: index of the first element satisfying
`p`, or -1 when there is none. -/
def findIndexJs {α : Type} (p : α → Bool) : List α → Int
  | [] => -1
  | x :: xs =>
      if p x then 0
      else
        let r := findIndexJs p xs
        if r = -1 then -1 else r + 1

/-- JS array read `l[i]`: `undefined` (here `none`) on a negative or
out-of-range index. -/
def jsGet {α : Type} (l : List α) (i : Int) : Option α :=
  if i < 0 then none else l[i.toNat]?

/-- `getBookmarks()`: `this.storage[this.activeContextId] || []`. -/
def getBookmarks (s : ManagerState) : List Bookmark :=
  (lookupCtx s.storage s.activeContextId).getD []

-- --- Context management ---

/-- Result union of `deleteContext`. -/
inductive DeleteResult where
  | success
  | not_found
  | active
  | last
deriving DecidableEq, Repr

/-- `deleteContext(contextId)`: existence check, then active-context guard,
then last-remaining guard (`Object.keys(this.storage).length <= 1`), then
removal + save. Returns the outcome together with the resulting state. -/
def deleteContext (s : ManagerState) (contextId : String) : DeleteResult × ManagerState :=
  if (lookupCtx s.storage contextId).isNone then (.not_found, s)
  else if contextId = s.activeContextId then (.active, s)
  else if s.storage.length ≤ 1 then (.last, s)
  else (.success, { s with storage := delCtx s.storage contextId })

/-- `createContext(newContextId)`: fails on existing or empty name. -/
def createContext (s : ManagerState) (newContextId : String) : Bool × ManagerState :=
  if (lookupCtx s.storage newContextId).isSome ∨ newContextId = "" then (false, s)
  else (true, { s with storage := setCtx s.storage newContextId [] })

/-- `switchContext(contextId)`: fails when absent, else sets it active and
resets the navigation cursor. -/
def switchContext (s : ManagerState) (contextId : String) : Bool × ManagerState :=
  if (lookupCtx s.storage contextId).isNone then (false, s)
  else (true, { s with activeContextId := contextId, currentBookmarkIndex := -1 })

-- --- Bookmark operations ---

/-- `addBookmark(fsPath, lineNumber, label)`: pushes a fresh bookmark onto the
live array returned by `getBookmarks()`.  The fresh uuid is passed in as
`newId`.  When the active context has no binding, `getBookmarks()` returns a
fresh `[]` and the push is lost — the storage is unchanged, which the
embedding reproduces. -/
def addBookmark (s : ManagerState) (newId fsPath : String) (lineNumber : Int) (label : String) : ManagerState :=
  match lookupCtx s.storage s.activeContextId with
  | some bs =>
      let b : Bookmark := { id := newId, fsPath := fsPath, lineNumber := lineNumber, label := label }
      { s with storage := setCtx s.storage s.activeContextId (bs ++ [b]) }
  | none => s

/-- `removeBookmark(bookmarkId)`: filters the active sequence and adjusts the
cursor against `oldIndex = findIndex(...)` (which is -1 when absent). -/
def removeBookmark (s : ManagerState) (bookmarkId : String) : ManagerState :=
  let bookmarks := getBookmarks s
  let oldIndex := findIndexJs (fun b => b.id == bookmarkId) bookmarks
  let storage' := setCtx s.storage s.activeContextId (bookmarks.filter (fun b => b.id ≠ bookmarkId))
  let idx :=
    if s.currentBookmarkIndex > oldIndex then s.currentBookmarkIndex - 1
    else if s.currentBookmarkIndex = oldIndex then -1
    else s.currentBookmarkIndex
  { s with storage := storage', currentBookmarkIndex := idx }

/-- `clearAllBookmarks()`. -/
def clearAllBookmarks (s : ManagerState) : ManagerState :=
  { s with storage := setCtx s.storage s.activeContextId [],
           currentBookmarkIndex := -1 }

/-- `splice(i, 0, a)`: insert `a` at index `i`. -/
def spliceIn {α : Type} (l : List α) (i : Nat) (a : α) : List α :=
  l.take i ++ a :: l.drop i

/-- `reorderBookmarks(draggedBookmark, targetBookmark?)`; the source only uses
the two bookmarks' ids, which we take directly.  `splice(sourceIndex, 1)`
removes the dragged element, the target is then looked up in the remaining
sequence, and the cursor becomes the dragged bookmark's new index. -/
def reorderBookmarks (s : ManagerState) (draggedId : String) (targetId : Option String) : ManagerState :=
  let bookmarks := getBookmarks s
  let sourceIndex := findIndexJs (fun b => b.id == draggedId) bookmarks
  if sourceIndex = -1 then s
  else
    match jsGet bookmarks sourceIndex with
    | none => s
    | some removed =>
      let rest := bookmarks.eraseIdx sourceIndex.toNat
      let r : List Bookmark × Int :=
        match targetId with
        | some tid =>
            let targetIndex := findIndexJs (fun b => b.id == tid) rest
            if targetIndex = -1 then (rest ++ [removed], (rest.length : Int))
            else (spliceIn rest targetIndex.toNat removed, targetIndex)
        | none => (rest ++ [removed], (rest.length : Int))
      { s with storage := setCtx s.storage s.activeContextId r.1,
               currentBookmarkIndex := r.2 }

-- --- Navigation ---

/-- `setCurrentBookmarkById(bookmarkId?)`. -/
def setCurrentBookmarkById (s : ManagerState) (bookmarkId : Option String) : ManagerState :=
  match bookmarkId with
  | none => { s with currentBookmarkIndex := -1 }
  | some bid =>
      { s with currentBookmarkIndex := findIndexJs (fun b => b.id == bid) (getBookmarks s) }

/-- `getCurrentBookmark()`. -/
def getCurrentBookmark (s : ManagerState) : Option Bookmark :=
  let bookmarks := getBookmarks s
  if s.currentBookmarkIndex < 0 ∨ s.currentBookmarkIndex ≥ (bookmarks.length : Int) then none
  else jsGet bookmarks s.currentBookmarkIndex

/-- `getNextBookmark()`: returns the bookmark moved to (if any) and the
updated state. -/
def getNextBookmark (s : ManagerState) : Option Bookmark × ManagerState :=
  let bookmarks := getBookmarks s
  if bookmarks.length = 0 ∨ s.currentBookmarkIndex ≥ (bookmarks.length : Int) - 1 then (none, s)
  else
    let i := s.currentBookmarkIndex + 1
    (jsGet bookmarks i, { s with currentBookmarkIndex := i })

/-- `getPreviousBookmark()`. -/
def getPreviousBookmark (s : ManagerState) : Option Bookmark × ManagerState :=
  let bookmarks := getBookmarks s
  if bookmarks.length = 0 ∨ s.currentBookmarkIndex ≤ 0 then (none, s)
  else
    let i := s.currentBookmarkIndex - 1
    (jsGet bookmarks i, { s with currentBookmarkIndex := i })

-- --- Edit reconciliation (`handleTextDocumentChange`) ---

/-- vscode `Position` (0-based line/character). -/
structure Position where
  line : Int
  character : Int
deriving DecidableEq, Repr

/-- vscode `Range` with inclusive endpoint positions. -/
structure Range where
  start : Position
  «end» : Position
deriving DecidableEq, Repr

/-- `Position.isBeforeOrEqual`. -/
def posLE (a b : Position) : Bool :=
  a.line < b.line ∨ (a.line = b.line ∧ a.character ≤ b.character)

/-- vscode `Range.contains(position)`: `start ≤ p ≤ end`. -/
def Range.containsPos (r : Range) (p : Position) : Bool :=
  posLE r.start p ∧ posLE p r.«end»

/-- One element of `event.contentChanges`: the replaced range and the
replacement text. -/
structure ContentChange where
  range : Range
  text : String
deriving DecidableEq, Repr

/-- `(change.text.match(/\n/g) || []).length`. -/
def countNewlines (t : String) : Int :=
  ((t.toList.filter (fun c => c == '\n')).length : Int)

/-- The parts of `event.document` the reconciler reads: `uri.fsPath` and the
document's (post-edit) lines, giving `lineCount` and `lineAt(i).text`. -/
structure TextDocument where
  fsPath : String
  lines : List String
deriving DecidableEq, Repr

/-- `document.lineAt(i).text`.  vscode would throw on an out-of-range index;
the source only calls this under the guard `lineNumber - 1 < lineCount`, and
we make the function total with `""` elsewhere. -/
def TextDocument.lineTextAt (d : TextDocument) (i : Int) : String :=
  (jsGet d.lines i).getD ""

/-- JS `String.prototype.trim()`, modelled over the character list with the
common ASCII whitespace characters (structural recursion, so that concrete
instances compute). -/
def isWhitespaceChar (c : Char) : Bool :=
  c = ' ' ∨ c = '\t' ∨ c = '\n' ∨ c = '\r'

def jsTrim (t : String) : String :=
  String.mk (((t.data.dropWhile isWhitespaceChar).reverse.dropWhile isWhitespaceChar).reverse)

/-- The body of the inner `for (const bookmark of affectedBookmarks)` loop for
one content change: accumulator is (bookmarks processed so far, changed ids,
deleted ids).  A bookmark of another file, or one already marked for deletion,
passes through untouched. -/
def reconcileStep (fsPath : String) (range : Range) (lineDelta : Int)
    (acc : List Bookmark × List String × List String) (b : Bookmark) :
    List Bookmark × List String × List String :=
  if b.fsPath = fsPath ∧ ¬ acc.2.2.contains b.id then
    let bookmarkLine := b.lineNumber - 1
    if range.«end».line < bookmarkLine then
      (acc.1 ++ [{ b with lineNumber := b.lineNumber + lineDelta }], b.id :: acc.2.1, acc.2.2)
    else if range.containsPos ⟨bookmarkLine, 0⟩ then
      (acc.1 ++ [b], acc.2.1, b.id :: acc.2.2)
    else
      (acc.1 ++ [b], acc.2.1, acc.2.2)
  else
    (acc.1 ++ [b], acc.2.1, acc.2.2)

/-- One iteration of `for (const change of event.contentChanges)`. -/
def applyChange (fsPath : String) (st : List Bookmark × List String × List String)
    (change : ContentChange) : List Bookmark × List String × List String :=
  let linesAdded := countNewlines change.text
  let linesRemoved := change.range.«end».line - change.range.start.line
  let lineDelta := linesAdded - linesRemoved
  List.foldl (reconcileStep fsPath change.range lineDelta) ([], st.2.1, st.2.2) st.1

/-- The label-refresh loop over the surviving bookmarks of the edited file. -/
def labelStep (doc : TextDocument) (deleted : List String)
    (acc : List Bookmark × List String) (b : Bookmark) : List Bookmark × List String :=
  if b.fsPath = doc.fsPath ∧ ¬ deleted.contains b.id then
    if b.lineNumber - 1 < (doc.lines.length : Int) then
      let currentLineText := jsTrim (doc.lineTextAt (b.lineNumber - 1))
      if b.label ≠ currentLineText then
        (acc.1 ++ [{ b with label := currentLineText }], b.id :: acc.2)
      else (acc.1 ++ [b], acc.2)
    else (acc.1 ++ [b], acc.2)
  else (acc.1 ++ [b], acc.2)

/-- The whole mutation pipeline of `handleTextDocumentChange` past the early
return: all content changes, then the deletion filter, then the label pass.
Returns the final active sequence and the changed/deleted id sets. -/
def reconcileCore (s : ManagerState) (doc : TextDocument)
    (contentChanges : List ContentChange) : List Bookmark × List String × List String :=
  let bookmarks := getBookmarks s
  let p1 := List.foldl (applyChange doc.fsPath) (bookmarks, [], []) contentChanges
  let bs2 := if p1.2.2.isEmpty then p1.1 else p1.1.filter (fun b => ¬ p1.2.2.contains b.id)
  let p2 := List.foldl (labelStep doc p1.2.2) ([], p1.2.1) bs2
  (p2.1, p2.2, p1.2.2)

/-- Result of `handleTextDocumentChange`: the state after the call, the
returned boolean (`true` = "changed") and whether `save()` ran. -/
structure ReconcileResult where
  state : ManagerState
  report : Bool
  persisted : Bool
deriving DecidableEq, Repr

/-- `handleTextDocumentChange(event)`.  In the source the shifts and label
updates mutate the live bookmark objects of the active context's array, and a
deletion replaces that array, so after the call the active entry holds exactly
the pipeline's output (the early return fires whenever the entry is absent). -/
def handleTextDocumentChange (s : ManagerState) (doc : TextDocument)
    (contentChanges : List ContentChange) : ReconcileResult :=
  let bookmarks := getBookmarks s
  let affected := bookmarks.filter (fun b => b.fsPath == doc.fsPath)
  if affected.isEmpty then ⟨s, false, false⟩
  else
    let r := reconcileCore s doc contentChanges
    let s' := { s with storage := setCtx s.storage s.activeContextId r.1 }
    if ¬ r.2.1.isEmpty ∨ ¬ r.2.2.isEmpty then ⟨s', true, true⟩ else ⟨s', false, false⟩

-- --- Hydration (`load`) ---

/-- The three persisted entries read/written by the manager: legacy
`bookmarks`, `bookmark-storage`, `bookmark-active-context`; `none` = key
absent/undefined. -/
structure WorkspaceState where
  bookmarks : Option (List Bookmark)
  bookmarkStorage : Option Storage
  bookmarkActiveContext : Option String
deriving DecidableEq, Repr

/-- Result of `load()`: in-memory state, the workspace entries afterwards, and
whether a persist (`save()`) ran during load. -/
structure LoadResult where
  state : ManagerState
  workspace : WorkspaceState
  persisted : Bool
deriving DecidableEq, Repr

/-- The non-migration path of `load()`: read the new-format entries with their
defaults and re-point the active context at `DEFAULT_CONTEXT` (creating it
empty if needed) when the stored pointer dangles. -/
def loadNormal (ws : WorkspaceState) : LoadResult :=
  let storage0 := ws.bookmarkStorage.getD [(DEFAULT_CONTEXT, [])]
  let active0 := ws.bookmarkActiveContext.getD DEFAULT_CONTEXT
  let st : ManagerState :=
    if (lookupCtx storage0 active0).isNone then
      let storage1 :=
        if (lookupCtx storage0 DEFAULT_CONTEXT).isNone then setCtx storage0 DEFAULT_CONTEXT []
        else storage0
      { storage := storage1, activeContextId := DEFAULT_CONTEXT, currentBookmarkIndex := -1 }
    else
      { storage := storage0, activeContextId := active0, currentBookmarkIndex := -1 }
  { state := st, workspace := ws, persisted := false }

/-- `load()`: migrate a non-empty legacy `bookmarks` entry (move it under the
default context, clear the legacy key, `save()` immediately), else the
non-migration path. -/
def load (ws : WorkspaceState) : LoadResult :=
  match ws.bookmarks with
  | some oldBookmarks =>
      if oldBookmarks.length > 0 then
        let st : ManagerState :=
          { storage := setCtx [] DEFAULT_CONTEXT oldBookmarks,
            activeContextId := DEFAULT_CONTEXT, currentBookmarkIndex := -1 }
        { state := st,
          workspace :=
            { bookmarks := none, bookmarkStorage := some st.storage,
              bookmarkActiveContext := some st.activeContextId },
          persisted := true }
      else loadNormal ws
  | none => loadNormal ws

/-! ### Helper lemmas -/

theorem lookupCtx_setCtx_self (s : Storage) (k : String) (v : List Bookmark) :
    lookupCtx (setCtx s k v) k = some v := by
  induction s with
  | nil => simp [setCtx, lookupCtx]
  | cons hd tl ih =>
      obtain ⟨k', v'⟩ := hd
      by_cases h : k' = k
      · simp [setCtx, lookupCtx, h]
      · simp [setCtx, lookupCtx, h, ih]

theorem lookupCtx_setCtx_ne (s : Storage) (k c : String) (v : List Bookmark) (h : c ≠ k) :
    lookupCtx (setCtx s k v) c = lookupCtx s c := by
  induction s with
  | nil =>
      simp only [setCtx, lookupCtx]
      rw [if_neg (fun hh : k = c => h hh.symm)]
  | cons hd tl ih =>
      obtain ⟨k', v'⟩ := hd
      by_cases hk : k' = k
      · subst hk
        simp only [setCtx, if_pos rfl, lookupCtx]
        rw [if_neg (fun hh : k' = c => h hh.symm), if_neg (fun hh : k' = c => h hh.symm)]
      · simp [setCtx, lookupCtx, hk, ih]

theorem setCtx_lookup_eq (s : Storage) (k : String) (v : List Bookmark)
    (h : lookupCtx s k = some v) : setCtx s k v = s := by
  induction s with
  | nil => simp [lookupCtx] at h
  | cons hd tl ih =>
      obtain ⟨k', v'⟩ := hd
      by_cases hk : k' = k
      · subst hk
        have hv : v' = v := by simpa [lookupCtx] using h
        subst hv
        simp [setCtx]
      · simp only [lookupCtx, if_neg hk] at h
        simp [setCtx, hk, ih h]

theorem findIndexJs_ge {α : Type} (p : α → Bool) (l : List α) : -1 ≤ findIndexJs p l := by
  induction l with
  | nil => simp [findIndexJs]
  | cons x xs ih =>
      simp only [findIndexJs]
      split
      · omega
      · split
        · omega
        · omega

theorem findIndexJs_get {α : Type} (p : α → Bool) (l : List α) (n : Nat)
    (h : findIndexJs p l = (n : Int)) : ∃ x, l[n]? = some x ∧ p x = true := by
  induction l generalizing n with
  | nil =>
      simp only [findIndexJs] at h
      omega
  | cons x xs ih =>
      simp only [findIndexJs] at h
      by_cases hp : p x
      · rw [if_pos hp] at h
        have hn : n = 0 := by omega
        subst hn
        exact ⟨x, by simp, hp⟩
      · rw [if_neg hp] at h
        by_cases hr : findIndexJs p xs = -1
        · rw [if_pos hr] at h
          omega
        · rw [if_neg hr] at h
          have hge := findIndexJs_ge p xs
          obtain ⟨m, hm⟩ : ∃ m : Nat, n = m + 1 := ⟨n - 1, by omega⟩
          subst hm
          have hxs : findIndexJs p xs = (m : Int) := by push_cast at h ⊢; omega
          obtain ⟨y, hy, hpy⟩ := ih m hxs
          exact ⟨y, by simpa using hy, hpy⟩

theorem findIndexJs_neg {α : Type} (p : α → Bool) (l : List α)
    (h : findIndexJs p l = -1) : ∀ x ∈ l, p x = false := by
  induction l with
  | nil => simp
  | cons x xs ih =>
      simp only [findIndexJs] at h
      by_cases hp : p x
      · rw [if_pos hp] at h
        exact absurd h (by omega)
      · rw [if_neg hp] at h
        by_cases hr : findIndexJs p xs = -1
        · intro y hy
          rcases List.mem_cons.mp hy with rfl | hy'
          · simpa using hp
          · exact ih hr y hy'
        · rw [if_neg hr] at h
          have := findIndexJs_ge p xs
          exact absurd h (by omega)

theorem jsGet_ofNat {α : Type} (l : List α) (n : Nat) : jsGet l (n : Int) = l[n]? := by
  simp [jsGet]

theorem jsGet_isSome {α : Type} (l : List α) (i : Int) (h0 : 0 ≤ i)
    (h1 : i < (l.length : Int)) : (jsGet l i).isSome := by
  unfold jsGet
  rw [if_neg (by omega)]
  have hlt : i.toNat < l.length := by omega
  simp [List.getElem?_eq_getElem hlt]

theorem jsGet_mem {α : Type} {l : List α} {i : Int} {a : α} (h : jsGet l i = some a) :
    a ∈ l := by
  unfold jsGet at h
  split at h
  · exact absurd h (by simp)
  · exact List.getElem?_mem h

theorem getCurrentBookmark_mem (s : ManagerState) (b : Bookmark)
    (h : getCurrentBookmark s = some b) : b ∈ getBookmarks s := by
  unfold getCurrentBookmark at h
  dsimp only at h
  split at h
  · exact absurd h (by simp)
  · exact jsGet_mem h

theorem filter_id_ne_eq_eraseIdx (l : List Bookmark) (bid : String) (n : Nat)
    (h : findIndexJs (fun b => b.id == bid) l = (n : Int))
    (hnd : (l.map Bookmark.id).Nodup) :
    l.filter (fun b => b.id ≠ bid) = l.eraseIdx n := by
  induction l generalizing n with
  | nil =>
      simp only [findIndexJs] at h
      omega
  | cons x xs ih =>
      simp only [findIndexJs] at h
      simp only [List.map_cons, List.nodup_cons] at hnd
      by_cases hp : (x.id == bid) = true
      · rw [if_pos hp] at h
        have hn : n = 0 := by omega
        subst hn
        have hxid : x.id = bid := by simpa using hp
        have hall : ∀ b ∈ xs, b.id ≠ bid := by
          intro b hb hbid
          apply hnd.1
          have hmem : b.id ∈ List.map Bookmark.id xs := List.mem_map_of_mem Bookmark.id hb
          rwa [hbid, ← hxid] at hmem
        simp only [List.eraseIdx_cons_zero, List.filter_cons]
        rw [if_neg (by simp [hxid])]
        exact List.filter_eq_self.mpr (fun b hb => by simpa using hall b hb)
  -- second case
      · rw [if_neg hp] at h
        by_cases hr : findIndexJs (fun b => b.id == bid) xs = -1
        · rw [if_pos hr] at h
          omega
        · rw [if_neg hr] at h
          have hge := findIndexJs_ge (fun b => b.id == bid) xs
          obtain ⟨m, hm⟩ : ∃ m : Nat, n = m + 1 := ⟨n - 1, by omega⟩
          subst hm
          have hxs : findIndexJs (fun b => b.id == bid) xs = (m : Int) := by
            push_cast at h ⊢; omega
          simp only [List.eraseIdx_cons_succ, List.filter_cons]
          rw [if_pos (by simpa using hp)]
          rw [ih m hxs hnd.2]

theorem spliceIn_get_self {α : Type} (l : List α) (i : Nat) (a : α) (h : i ≤ l.length) :
    (spliceIn l i a)[i]? = some a := by
  induction l generalizing i with
  | nil =>
      have : i = 0 := by simpa using h
      subst this
      simp [spliceIn]
  | cons x xs ih =>
      cases i with
      | zero => simp [spliceIn]
      | succ j =>
          simp only [spliceIn, List.take_succ_cons, List.drop_succ_cons, List.cons_append,
            List.getElem?_cons_succ]
          exact ih j (by simpa using h)

theorem spliceIn_get_succ {α : Type} (l : List α) (i : Nat) (a : α) (h : i ≤ l.length) :
    (spliceIn l i a)[i + 1]? = l[i]? := by
  induction l generalizing i with
  | nil =>
      have : i = 0 := by simpa using h
      subst this
      simp [spliceIn]
  | cons x xs ih =>
      cases i with
      | zero => simp [spliceIn]
      | succ j =>
          simp only [spliceIn, List.take_succ_cons, List.drop_succ_cons, List.cons_append,
            List.getElem?_cons_succ]
          exact ih j (by simpa using h)

/-! ### Claim theorems -/

/-- C1 (amended): for every store state, `deleteContext(name)` applies its
checks in the order existence, active-context guard, last-remaining guard, and
otherwise removes the context and reports success; consequently on the sole
existing context it returns `active` when that context is the active one (the
invariant-respecting case) and `last` only when it is not. -/
theorem C1_deleteContext_check_order (s : ManagerState) (name : String) :
    (lookupCtx s.storage name = none → deleteContext s name = (.not_found, s))
    ∧ (lookupCtx s.storage name ≠ none → name = s.activeContextId →
        deleteContext s name = (.active, s))
    ∧ (lookupCtx s.storage name ≠ none → name ≠ s.activeContextId →
        s.storage.length ≤ 1 → deleteContext s name = (.last, s))
    ∧ (lookupCtx s.storage name ≠ none → name ≠ s.activeContextId →
        1 < s.storage.length →
        deleteContext s name = (.success, { s with storage := delCtx s.storage name }))
    ∧ (s.storage.length = 1 → lookupCtx s.storage name ≠ none →
        deleteContext s name =
          (if name = s.activeContextId then (.active, s) else (.last, s))) := by
  unfold deleteContext
  refine ⟨fun h => ?_, fun h h2 => ?_, fun h h2 h3 => ?_, fun h h2 h3 => ?_, fun h h2 => ?_⟩
  · simp [Option.isNone_iff_eq_none, h]
  · subst h2
    simp [Option.isNone_iff_eq_none, h]
  · simp [Option.isNone_iff_eq_none, h, h2, h3]
  · simp only [Option.isNone_iff_eq_none]
    rw [if_neg h, if_neg h2, if_neg (by omega)]
  · by_cases ha : name = s.activeContextId
    · subst ha
      simp [Option.isNone_iff_eq_none, h2]
    · simp [Option.isNone_iff_eq_none, h2, ha, h]

/-- C1 counterexample: on the store whose only context `"default"` is the
active one, `deleteContext "default"` returns `active`, not `last` as the
claim asserts for the sole existing context. -/
theorem C1_counterexample :
    deleteContext ⟨[("default", [])], "default", -1⟩ "default"
      = (.active, ⟨[("default", [])], "default", -1⟩)
    ∧ (deleteContext ⟨[("default", [])], "default", -1⟩ "default").1 ≠ .last
    ∧ (⟨[("default", [])], "default", -1⟩ : ManagerState).storage.length = 1
    ∧ lookupCtx (⟨[("default", [])], "default", -1⟩ : ManagerState).storage "default"
      = some [] := by decide

/-- C1 witness: deleting the non-active context `"work"` from a two-context
store succeeds and removes exactly that context. -/
theorem C1_witness :
    deleteContext ⟨[("default", []), ("work", [])], "default", -1⟩ "work"
      = (.success, ⟨[("default", [])], "default", -1⟩) := by
  have h := (C1_deleteContext_check_order
      ⟨[("default", []), ("work", [])], "default", -1⟩ "work").2.2.2.1
    (by decide) (by decide) (by decide)
  rw [h]
  decide

/-- C2 (amended): reconciliation performs no cursor adjustment at all —
`handleTextDocumentChange` leaves `currentBookmarkIndex` exactly as it was,
even when it removes bookmarks marked for deletion. -/
theorem C2_reconcile_cursor_unchanged (s : ManagerState) (doc : TextDocument)
    (contentChanges : List ContentChange) :
    (handleTextDocumentChange s doc contentChanges).state.currentBookmarkIndex
      = s.currentBookmarkIndex := by
  unfold handleTextDocumentChange
  dsimp only
  split
  · rfl
  · split <;> rfl

/-- C2 counterexample: the cursor sits at index 0 on bookmark "a"; an edit
covering line 0 deletes "a" during reconciliation, yet the cursor stays at 0
and afterwards indexes the other bookmark "b" — neither unset nor the same
surviving bookmark it indexed before. -/
theorem C2_counterexample :
    (handleTextDocumentChange
        ⟨[("default", [⟨"a", "f", 1, "la"⟩, ⟨"b", "f", 5, "lb"⟩])], "default", 0⟩
        ⟨"f", ["z", "l1", "l2", "l3", "lb"]⟩ [⟨⟨⟨0, 0⟩, ⟨0, 5⟩⟩, ""⟩]).state
      = ⟨[("default", [⟨"b", "f", 5, "lb"⟩])], "default", 0⟩
    ∧ getCurrentBookmark
        ⟨[("default", [⟨"a", "f", 1, "la"⟩, ⟨"b", "f", 5, "lb"⟩])], "default", 0⟩
      = some ⟨"a", "f", 1, "la"⟩
    ∧ getCurrentBookmark (⟨[("default", [⟨"b", "f", 5, "lb"⟩])], "default", 0⟩ : ManagerState)
      = some ⟨"b", "f", 5, "lb"⟩ := by decide

/-- C3 (code behavior at the failing input): with one bookmark "a" in the
active context and the cursor on it (index 0), `removeBookmark` of the absent
id "zzz" leaves every sequence and the active context unchanged but resets the
cursor to -1: `findIndex` returns -1, so the `currentBookmarkIndex > oldIndex`
branch fires even though nothing was removed. -/
theorem C3_removeBookmark_absent_moves_cursor :
    (getBookmarks ⟨[("default", [⟨"a", "f", 5, "la"⟩])], "default", 0⟩).all
        (fun b => b.id != "zzz")
    ∧ removeBookmark ⟨[("default", [⟨"a", "f", 5, "la"⟩])], "default", 0⟩ "zzz"
      = ⟨[("default", [⟨"a", "f", 5, "la"⟩])], "default", -1⟩ := by decide

/-- C5 (amended): `getNextBookmark` returns none with the state unchanged
exactly when the sequence is empty or the cursor is at or beyond the last
index; otherwise it increments the cursor and returns the element at the new
cursor, which is a bookmark whenever the cursor was ≥ -1 (an unset cursor
moves to index 0, the first bookmark).  `getPreviousBookmark` is symmetric:
none exactly when the sequence is empty or the cursor is ≤ 0, otherwise it
decrements and returns the element at the new cursor, a bookmark whenever the
cursor was at most the length.  Neither operation wraps around. -/
theorem C5_navigation (s : ManagerState) :
    ((getBookmarks s).length = 0 ∨
        ((getBookmarks s).length : Int) - 1 ≤ s.currentBookmarkIndex →
      getNextBookmark s = (none, s))
    ∧ ((getBookmarks s).length ≠ 0 →
        s.currentBookmarkIndex < ((getBookmarks s).length : Int) - 1 →
      (getNextBookmark s).2 = { s with currentBookmarkIndex := s.currentBookmarkIndex + 1 }
      ∧ (getNextBookmark s).1 = jsGet (getBookmarks s) (s.currentBookmarkIndex + 1)
      ∧ (-1 ≤ s.currentBookmarkIndex → (getNextBookmark s).1.isSome))
    ∧ ((getBookmarks s).length = 0 ∨ s.currentBookmarkIndex ≤ 0 →
      getPreviousBookmark s = (none, s))
    ∧ ((getBookmarks s).length ≠ 0 → 0 < s.currentBookmarkIndex →
      (getPreviousBookmark s).2 = { s with currentBookmarkIndex := s.currentBookmarkIndex - 1 }
      ∧ (getPreviousBookmark s).1 = jsGet (getBookmarks s) (s.currentBookmarkIndex - 1)
      ∧ (s.currentBookmarkIndex ≤ ((getBookmarks s).length : Int) →
          (getPreviousBookmark s).1.isSome)) := by
  refine ⟨fun h => ?_, fun h1 h2 => ?_, fun h => ?_, fun h1 h2 => ?_⟩
  · unfold getNextBookmark
    dsimp only
    rw [if_pos h]
  · unfold getNextBookmark
    dsimp only
    rw [if_neg (by omega)]
    refine ⟨rfl, rfl, fun h3 => ?_⟩
    exact jsGet_isSome _ _ (by omega) (by omega)
  · unfold getPreviousBookmark
    dsimp only
    rw [if_pos h]
  · unfold getPreviousBookmark
    dsimp only
    rw [if_neg (by omega)]
    refine ⟨rfl, rfl, fun h3 => ?_⟩
    exact jsGet_isSome _ _ (by omega) (by omega)

/-- C5 counterexample: with one bookmark and the cursor stuck at 2 (beyond the
last index — reachable because reconciliation deletions never adjust the
cursor), `getNextBookmark` returns none although the sequence is non-empty and
the cursor does not index the last element, refuting the claimed "exactly
when ... the cursor already indexes the last element". -/
theorem C5_counterexample :
    (getNextBookmark ⟨[("default", [⟨"a", "f", 1, "A"⟩])], "default", 2⟩).1 = none
    ∧ (getNextBookmark ⟨[("default", [⟨"a", "f", 1, "A"⟩])], "default", 2⟩).2
      = ⟨[("default", [⟨"a", "f", 1, "A"⟩])], "default", 2⟩
    ∧ getBookmarks ⟨[("default", [⟨"a", "f", 1, "A"⟩])], "default", 2⟩ ≠ []
    ∧ (2 : Int) ≠
        ((getBookmarks ⟨[("default", [⟨"a", "f", 1, "A"⟩])], "default", 2⟩).length : Int) - 1 := by
  decide

/-- C5 witness: from an unset cursor over two bookmarks, `getNextBookmark`
moves the cursor to index 0 and returns the first bookmark. -/
theorem C5_witness :
    (getNextBookmark
        ⟨[("default", [⟨"a", "f", 1, "A"⟩, ⟨"b", "f", 2, "B"⟩])], "default", -1⟩).1
      = some ⟨"a", "f", 1, "A"⟩
    ∧ (getNextBookmark
        ⟨[("default", [⟨"a", "f", 1, "A"⟩, ⟨"b", "f", 2, "B"⟩])], "default", -1⟩).2.currentBookmarkIndex
      = 0 := by
  have h := (C5_navigation
      ⟨[("default", [⟨"a", "f", 1, "A"⟩, ⟨"b", "f", 2, "B"⟩])], "default", -1⟩).2.1
    (by decide) (by decide)
  refine ⟨?_, ?_⟩
  · rw [h.2.1]; decide
  · rw [h.1]; decide

/-- C6: when the active context holds a bookmark with the given id at position
`oldIndex` (bookmark ids being unique within the context), `removeBookmark`
removes exactly that bookmark, and the cursor is adjusted: strictly greater
than `oldIndex` → decremented by one, equal → reset to unset (-1), smaller →
unchanged; and `getCurrentBookmark` invoked right after never returns the
removed bookmark. -/
theorem C6_removeBookmark_present (s : ManagerState) (bookmarkId : String) (oldIndex : Nat)
    (hfind : findIndexJs (fun b => b.id == bookmarkId) (getBookmarks s) = (oldIndex : Int))
    (hnd : ((getBookmarks s).map Bookmark.id).Nodup) :
    getBookmarks (removeBookmark s bookmarkId) = (getBookmarks s).eraseIdx oldIndex
    ∧ (removeBookmark s bookmarkId).currentBookmarkIndex =
        (if (oldIndex : Int) < s.currentBookmarkIndex then s.currentBookmarkIndex - 1
         else if s.currentBookmarkIndex = (oldIndex : Int) then -1
         else s.currentBookmarkIndex)
    ∧ (∀ b, getCurrentBookmark (removeBookmark s bookmarkId) = some b → b.id ≠ bookmarkId) := by
  have hstate : removeBookmark s bookmarkId =
      ⟨setCtx s.storage s.activeContextId
          ((getBookmarks s).filter (fun b => b.id ≠ bookmarkId)),
        s.activeContextId,
        if s.currentBookmarkIndex > findIndexJs (fun b => b.id == bookmarkId) (getBookmarks s)
        then s.currentBookmarkIndex - 1
        else if s.currentBookmarkIndex
            = findIndexJs (fun b => b.id == bookmarkId) (getBookmarks s)
        then -1 else s.currentBookmarkIndex⟩ := rfl
  have hbooks : getBookmarks (removeBookmark s bookmarkId)
      = (getBookmarks s).filter (fun b => b.id ≠ bookmarkId) := by
    rw [hstate]
    unfold getBookmarks
    dsimp only
    rw [lookupCtx_setCtx_self]
    rfl
  refine ⟨?_, ?_, ?_⟩
  · rw [hbooks]
    exact filter_id_ne_eq_eraseIdx (getBookmarks s) bookmarkId oldIndex hfind hnd
  · rw [hstate]
    dsimp only
    rw [hfind]
  · intro b hb
    have hmem := getCurrentBookmark_mem _ b hb
    rw [hbooks] at hmem
    have := (List.mem_filter.mp hmem).2
    simpa using this

/-- C6 witness: removing "b" from [a, b, c] with the cursor at 2 leaves
[a, c], decrements the cursor to 1, and `getCurrentBookmark` does not return
the removed bookmark. -/
theorem C6_witness :
    getBookmarks (removeBookmark
        ⟨[("default", [⟨"a", "f", 1, "A"⟩, ⟨"b", "f", 2, "B"⟩, ⟨"c", "f", 3, "C"⟩])],
          "default", 2⟩ "b")
      = [⟨"a", "f", 1, "A"⟩, ⟨"c", "f", 3, "C"⟩]
    ∧ (removeBookmark
        ⟨[("default", [⟨"a", "f", 1, "A"⟩, ⟨"b", "f", 2, "B"⟩, ⟨"c", "f", 3, "C"⟩])],
          "default", 2⟩ "b").currentBookmarkIndex = 1
    ∧ (∀ b, getCurrentBookmark (removeBookmark
        ⟨[("default", [⟨"a", "f", 1, "A"⟩, ⟨"b", "f", 2, "B"⟩, ⟨"c", "f", 3, "C"⟩])],
          "default", 2⟩ "b") = some b → b.id ≠ "b") := by
  have h := C6_removeBookmark_present
    ⟨[("default", [⟨"a", "f", 1, "A"⟩, ⟨"b", "f", 2, "B"⟩, ⟨"c", "f", 3, "C"⟩])], "default", 2⟩
    "b" 1 (by decide) (by decide)
  exact ⟨by rw [h.1]; decide, by rw [h.2.1]; decide, h.2.2⟩

/-- C7: `reorderBookmarks(draggedId, targetId)` is a no-op when the dragged id
is absent from the active sequence.  When the dragged bookmark sits at
position i and the target is found at index t of the remaining sequence, the
result is exactly the remainder with the dragged bookmark inserted at t — so
it lands immediately before the target and every other bookmark keeps its
relative order — and the cursor becomes the dragged bookmark's new index t.
With an absent or unsupplied target the dragged bookmark moves to the end and
the cursor points at it.  E.g. reorder(A, C) over [A, B, C] yields [B, A, C]
with the cursor at 1. -/
theorem C7_reorderBookmarks (s : ManagerState) (draggedId : String) (targetId : Option String) :
    (findIndexJs (fun b => b.id == draggedId) (getBookmarks s) = -1 →
        reorderBookmarks s draggedId targetId = s)
    ∧ (∀ (i : Nat) (dragged : Bookmark) (tid : String) (t : Nat),
        findIndexJs (fun b => b.id == draggedId) (getBookmarks s) = (i : Int) →
        (getBookmarks s)[i]? = some dragged →
        targetId = some tid →
        findIndexJs (fun b => b.id == tid) ((getBookmarks s).eraseIdx i) = (t : Int) →
        getBookmarks (reorderBookmarks s draggedId targetId)
            = spliceIn ((getBookmarks s).eraseIdx i) t dragged
        ∧ (reorderBookmarks s draggedId targetId).currentBookmarkIndex = (t : Int)
        ∧ (getBookmarks (reorderBookmarks s draggedId targetId))[t]? = some dragged
        ∧ (∃ target, (getBookmarks (reorderBookmarks s draggedId targetId))[t + 1]?
              = some target ∧ target.id = tid))
    ∧ (∀ (i : Nat) (dragged : Bookmark),
        findIndexJs (fun b => b.id == draggedId) (getBookmarks s) = (i : Int) →
        (getBookmarks s)[i]? = some dragged →
        (targetId = none ∨ ∃ tid, targetId = some tid ∧
            findIndexJs (fun b => b.id == tid) ((getBookmarks s).eraseIdx i) = -1) →
        getBookmarks (reorderBookmarks s draggedId targetId)
            = (getBookmarks s).eraseIdx i ++ [dragged]
        ∧ (reorderBookmarks s draggedId targetId).currentBookmarkIndex
            = (((getBookmarks s).eraseIdx i).length : Int)
        ∧ (getBookmarks (reorderBookmarks s draggedId
              targetId))[((getBookmarks s).eraseIdx i).length]? = some dragged)
    ∧ reorderBookmarks
        ⟨[("default", [⟨"a", "f", 1, "A"⟩, ⟨"b", "f", 2, "B"⟩, ⟨"c", "f", 3, "C"⟩])],
          "default", -1⟩ "a" (some "c")
      = ⟨[("default", [⟨"b", "f", 2, "B"⟩, ⟨"a", "f", 1, "A"⟩, ⟨"c", "f", 3, "C"⟩])],
          "default", 1⟩ := by
  refine ⟨fun h => ?_, fun i dragged tid t hfi hget htid hft => ?_,
    fun i dragged hfi hget hcase => ?_, by decide⟩
  · unfold reorderBookmarks
    dsimp only
    rw [h, if_pos rfl]
  · subst htid
    have hne : ¬ ((i : Int) = -1) := by omega
    have hne2 : ¬ ((t : Int) = -1) := by omega
    have hstate : reorderBookmarks s draggedId (some tid) =
        { s with storage := setCtx s.storage s.activeContextId
                   (spliceIn ((getBookmarks s).eraseIdx i) t dragged),
                 currentBookmarkIndex := (t : Int) } := by
      unfold reorderBookmarks
      dsimp only
      rw [hfi, if_neg hne, jsGet_ofNat, hget]
      dsimp only
      rw [Int.toNat_ofNat, hft, if_neg hne2, Int.toNat_ofNat]
    have hbooks : getBookmarks (reorderBookmarks s draggedId (some tid))
        = spliceIn ((getBookmarks s).eraseIdx i) t dragged := by
      rw [hstate]
      unfold getBookmarks
      dsimp only
      rw [lookupCtx_setCtx_self]
      rfl
    obtain ⟨target, hrt, hpt⟩ := findIndexJs_get _ _ t hft
    have htlen : t < ((getBookmarks s).eraseIdx i).length := by
      rcases List.getElem?_eq_some.mp hrt with ⟨hlt, _⟩
      exact hlt
    refine ⟨hbooks, by rw [hstate], ?_, ?_⟩
    · rw [hbooks]
      exact spliceIn_get_self _ _ _ (le_of_lt htlen)
    · refine ⟨target, ?_, by simpa using hpt⟩
      rw [hbooks, spliceIn_get_succ _ _ _ (le_of_lt htlen)]
      exact hrt
  · have hne : ¬ ((i : Int) = -1) := by omega
    have hstate : reorderBookmarks s draggedId targetId =
        { s with storage := setCtx s.storage s.activeContextId
                   ((getBookmarks s).eraseIdx i ++ [dragged]),
                 currentBookmarkIndex := (((getBookmarks s).eraseIdx i).length : Int) } := by
      rcases hcase with rfl | ⟨tid, rfl, hft⟩
      · unfold reorderBookmarks
        dsimp only
        rw [hfi, if_neg hne, jsGet_ofNat, hget]
        dsimp only
        rw [Int.toNat_ofNat]
      · unfold reorderBookmarks
        dsimp only
        rw [hfi, if_neg hne, jsGet_ofNat, hget]
        dsimp only
        rw [Int.toNat_ofNat, hft, if_pos rfl]
    have hbooks : getBookmarks (reorderBookmarks s draggedId targetId)
        = (getBookmarks s).eraseIdx i ++ [dragged] := by
      rw [hstate]
      unfold getBookmarks
      dsimp only
      rw [lookupCtx_setCtx_self]
      rfl
    refine ⟨hbooks, by rw [hstate], ?_⟩
    rw [hbooks]
    exact List.getElem?_concat_length _ _

/-- C7 witness: the concrete reorder over [A, B, C] instantiating the
target-found case of the theorem, discharging its hypotheses at the concrete
store. -/
theorem C7_witness :
    getBookmarks (reorderBookmarks
        ⟨[("default", [⟨"a", "f", 1, "A"⟩, ⟨"b", "f", 2, "B"⟩, ⟨"c", "f", 3, "C"⟩])],
          "default", -1⟩ "a" (some "c"))
      = [⟨"b", "f", 2, "B"⟩, ⟨"a", "f", 1, "A"⟩, ⟨"c", "f", 3, "C"⟩]
    ∧ (reorderBookmarks
        ⟨[("default", [⟨"a", "f", 1, "A"⟩, ⟨"b", "f", 2, "B"⟩, ⟨"c", "f", 3, "C"⟩])],
          "default", -1⟩ "a" (some "c")).currentBookmarkIndex = 1 := by
  have h := (C7_reorderBookmarks
      ⟨[("default", [⟨"a", "f", 1, "A"⟩, ⟨"b", "f", 2, "B"⟩, ⟨"c", "f", 3, "C"⟩])],
        "default", -1⟩ "a" (some "c")).2.1 0 ⟨"a", "f", 1, "A"⟩ "c" 1
    (by decide) (by decide) rfl (by decide)
  exact ⟨by rw [h.1]; decide, by rw [h.2.1]; rfl⟩

/-- C10: every bookmark-level operation — addBookmark, removeBookmark,
clearAllBookmarks, reorderBookmarks, and reconciliation via
handleTextDocumentChange — mutates only the active context's bookmark
sequence: for any context id c other than the active one, c's binding in the
storage is untouched, and the active context id itself is unchanged. -/
theorem C10_frame (s : ManagerState) (c : String) (hc : c ≠ s.activeContextId)
    (newId path : String) (line : Int) (text bookmarkId draggedId : String)
    (targetId : Option String) (doc : TextDocument) (contentChanges : List ContentChange) :
    (lookupCtx (addBookmark s newId path line text).storage c = lookupCtx s.storage c
      ∧ (addBookmark s newId path line text).activeContextId = s.activeContextId)
    ∧ (lookupCtx (removeBookmark s bookmarkId).storage c = lookupCtx s.storage c
      ∧ (removeBookmark s bookmarkId).activeContextId = s.activeContextId)
    ∧ (lookupCtx (clearAllBookmarks s).storage c = lookupCtx s.storage c
      ∧ (clearAllBookmarks s).activeContextId = s.activeContextId)
    ∧ (lookupCtx (reorderBookmarks s draggedId targetId).storage c = lookupCtx s.storage c
      ∧ (reorderBookmarks s draggedId targetId).activeContextId = s.activeContextId)
    ∧ (lookupCtx (handleTextDocumentChange s doc contentChanges).state.storage c
        = lookupCtx s.storage c
      ∧ (handleTextDocumentChange s doc contentChanges).state.activeContextId
        = s.activeContextId) := by
  refine ⟨⟨?_, ?_⟩, ⟨?_, ?_⟩, ⟨?_, ?_⟩, ⟨?_, ?_⟩, ⟨?_, ?_⟩⟩
  · unfold addBookmark
    split
    · dsimp only
      exact lookupCtx_setCtx_ne _ _ _ _ hc
    · rfl
  · unfold addBookmark
    split <;> rfl
  · unfold removeBookmark
    dsimp only
    exact lookupCtx_setCtx_ne _ _ _ _ hc
  · rfl
  · unfold clearAllBookmarks
    dsimp only
    exact lookupCtx_setCtx_ne _ _ _ _ hc
  · rfl
  · unfold reorderBookmarks
    dsimp only
    split
    · rfl
    · split
      · rfl
      · dsimp only
        exact lookupCtx_setCtx_ne _ _ _ _ hc
  · unfold reorderBookmarks
    dsimp only
    split
    · rfl
    · split <;> rfl
  · unfold handleTextDocumentChange
    dsimp only
    split
    · rfl
    · split <;> dsimp only <;> exact lookupCtx_setCtx_ne _ _ _ _ hc
  · unfold handleTextDocumentChange
    dsimp only
    split
    · rfl
    · split <;> rfl

/-- C10 witness: adding a bookmark in the active context "default" leaves the
other context's binding untouched. -/
theorem C10_witness :
    lookupCtx (addBookmark
        ⟨[("default", []), ("other", [⟨"x", "g", 1, "X"⟩])], "default", -1⟩
        "n" "f" 1 "L").storage "other"
      = lookupCtx [("default", []), ("other", [⟨"x", "g", 1, "X"⟩])] "other" :=
  (C10_frame ⟨[("default", []), ("other", [⟨"x", "g", 1, "X"⟩])], "default", -1⟩ "other"
    (by decide) "n" "f" 1 "L" "b" "d" none ⟨"f", []⟩ []).1.1

/-- C8: `handleTextDocumentChange` reports "changed" and persists exactly when
the batch of edits marked at least one bookmark as shifted/relabeled (the
changed set) or as deleted; in particular when no bookmark of the active
context belongs to the edited file it reports "no change" and returns the
state unmodified and unpersisted, and a persist happens exactly when "changed"
is reported. -/
theorem C8_report_iff_marked (s : ManagerState) (doc : TextDocument)
    (contentChanges : List ContentChange) :
    ((getBookmarks s).filter (fun b => b.fsPath == doc.fsPath) = [] →
        handleTextDocumentChange s doc contentChanges = ⟨s, false, false⟩)
    ∧ (handleTextDocumentChange s doc contentChanges).persisted
        = (handleTextDocumentChange s doc contentChanges).report
    ∧ ((getBookmarks s).filter (fun b => b.fsPath == doc.fsPath) ≠ [] →
        ((handleTextDocumentChange s doc contentChanges).report = true ↔
          ¬ (reconcileCore s doc contentChanges).2.1.isEmpty
          ∨ ¬ (reconcileCore s doc contentChanges).2.2.isEmpty)) := by
  refine ⟨fun h => ?_, ?_, fun h => ?_⟩
  · unfold handleTextDocumentChange
    dsimp only
    rw [if_pos (by rw [h]; rfl)]
  · unfold handleTextDocumentChange
    dsimp only
    split
    · rfl
    · split <;> rfl
  · unfold handleTextDocumentChange
    dsimp only
    rw [if_neg (by simp [List.isEmpty_iff, h])]
    split <;> rename_i h2 <;> simp only [List.isEmpty_iff] at h2 <;> simp [h2]

/-- C8 witness: a store whose single bookmark lies in another file — the
filter for the edited file is empty, and the call reports "no change" with
the state unmodified and no persist. -/
theorem C8_witness :
    handleTextDocumentChange ⟨[("default", [⟨"a", "g", 1, "A"⟩])], "default", -1⟩
        ⟨"f", ["x"]⟩ [⟨⟨⟨0, 0⟩, ⟨0, 1⟩⟩, "y"⟩]
      = ⟨⟨[("default", [⟨"a", "g", 1, "A"⟩])], "default", -1⟩, false, false⟩ :=
  (C8_report_iff_marked ⟨[("default", [⟨"a", "g", 1, "A"⟩])], "default", -1⟩
    ⟨"f", ["x"]⟩ [⟨⟨⟨0, 0⟩, ⟨0, 1⟩⟩, "y"⟩]).1 (by decide)

/-- C4: during reconciliation, each edit treats each bookmark of the edited
file as follows — a bookmark already marked for deletion is skipped (first
deleting edit wins); an edit whose end line is strictly below the bookmark's
0-based line shifts `lineNumber` by lineDelta and marks it changed; an edit
whose replaced range contains (bookmarkLine, column 0) marks it for deletion;
any other edit leaves it untouched — where lineDelta is the newline count of
the replacement text minus (end line − start line) of the replaced range, as
`applyChange` computes.  On the spec's example (bookmarks at lines 5 and 10,
insertion of two line breaks at 0-based line 1) the bookmarks end at lines 7
and 12 and reconciliation reports "changed". -/
theorem C4_edit_rule (path : String) (range : Range) (lineDelta : Int)
    (done : List Bookmark) (changed deleted : List String) (b : Bookmark) :
    (deleted.contains b.id = true →
        reconcileStep path range lineDelta (done, changed, deleted) b
          = (done ++ [b], changed, deleted))
    ∧ (b.fsPath = path → deleted.contains b.id = false →
        range.«end».line < b.lineNumber - 1 →
        reconcileStep path range lineDelta (done, changed, deleted) b
          = (done ++ [{ b with lineNumber := b.lineNumber + lineDelta }],
             b.id :: changed, deleted))
    ∧ (b.fsPath = path → deleted.contains b.id = false →
        ¬ range.«end».line < b.lineNumber - 1 →
        range.containsPos ⟨b.lineNumber - 1, 0⟩ = true →
        reconcileStep path range lineDelta (done, changed, deleted) b
          = (done ++ [b], changed, b.id :: deleted))
    ∧ (b.fsPath = path → deleted.contains b.id = false →
        ¬ range.«end».line < b.lineNumber - 1 →
        range.containsPos ⟨b.lineNumber - 1, 0⟩ = false →
        reconcileStep path range lineDelta (done, changed, deleted) b
          = (done ++ [b], changed, deleted))
    ∧ (∀ (st : List Bookmark × List String × List String) (change : ContentChange),
        applyChange path st change
          = List.foldl (reconcileStep path change.range
              (countNewlines change.text
                - (change.range.«end».line - change.range.start.line)))
              ([], st.2.1, st.2.2) st.1)
    ∧ ((handleTextDocumentChange
          ⟨[("default", [⟨"a", "f", 5, "l4"⟩, ⟨"b", "f", 10, "l9"⟩])], "default", -1⟩
          ⟨"f", ["l0", "x", "x", "l1", "l2", "l3", "l4", "l5", "l6", "l7", "l8", "l9"]⟩
          [⟨⟨⟨1, 0⟩, ⟨1, 0⟩⟩, "x\nx\n"⟩]).state
        = ⟨[("default", [⟨"a", "f", 7, "l4"⟩, ⟨"b", "f", 12, "l9"⟩])], "default", -1⟩
      ∧ (handleTextDocumentChange
          ⟨[("default", [⟨"a", "f", 5, "l4"⟩, ⟨"b", "f", 10, "l9"⟩])], "default", -1⟩
          ⟨"f", ["l0", "x", "x", "l1", "l2", "l3", "l4", "l5", "l6", "l7", "l8", "l9"]⟩
          [⟨⟨⟨1, 0⟩, ⟨1, 0⟩⟩, "x\nx\n"⟩]).report = true) := by
  refine ⟨fun h => ?_, fun h1 h2 h3 => ?_, fun h1 h2 h3 h4 => ?_, fun h1 h2 h3 h4 => ?_,
    fun st change => rfl, by decide⟩
  · unfold reconcileStep
    rw [if_neg (fun hcon => hcon.2 h)]
  · unfold reconcileStep
    rw [if_pos ⟨h1, by rw [h2]; decide⟩]
    dsimp only
    rw [if_pos h3]
  · unfold reconcileStep
    rw [if_pos ⟨h1, by rw [h2]; decide⟩]
    dsimp only
    rw [if_neg h3, if_pos h4]
  · unfold reconcileStep
    rw [if_pos ⟨h1, by rw [h2]; decide⟩]
    dsimp only
    rw [if_neg h3, if_neg (by rw [h4]; decide)]

/-- C4 witness: a single edit inserting two line breaks at 0-based line 1
shifts a bookmark at 1-based line 5 to line 7 and marks it changed. -/
theorem C4_witness :
    reconcileStep "f" ⟨⟨1, 0⟩, ⟨1, 0⟩⟩ 2 ([], [], []) ⟨"a", "f", 5, "l4"⟩
      = ([⟨"a", "f", 7, "l4"⟩], ["a"], []) := by
  have h := (C4_edit_rule "f" ⟨⟨1, 0⟩, ⟨1, 0⟩⟩ 2 [] [] [] ⟨"a", "f", 5, "l4"⟩).2.1
    rfl (by decide) (by decide)
  rw [h]
  decide

/-- The non-migration path of `load` yields exactly one empty default context
when `bookmark-storage` is missing or empty. -/
theorem loadNormal_empty (ws : WorkspaceState)
    (h : ws.bookmarkStorage = none ∨ ws.bookmarkStorage = some []) :
    (loadNormal ws).state.storage = [(DEFAULT_CONTEXT, [])]
    ∧ (loadNormal ws).state.activeContextId = DEFAULT_CONTEXT := by
  rcases h with h | h
  · unfold loadNormal
    rw [h]
    simp only [Option.getD_none]
    by_cases ha : (lookupCtx [(DEFAULT_CONTEXT, [])]
        (ws.bookmarkActiveContext.getD DEFAULT_CONTEXT)).isNone
    · rw [if_pos ha]
      dsimp only
      rw [if_neg (by simp [lookupCtx])]
      exact ⟨rfl, rfl⟩
    · rw [if_neg ha]
      dsimp only
      have hhe : DEFAULT_CONTEXT = ws.bookmarkActiveContext.getD DEFAULT_CONTEXT := by
        by_contra hne
        exact ha (by simp [lookupCtx, hne])
      exact ⟨rfl, hhe.symm⟩
  · unfold loadNormal
    rw [h]
    simp only [Option.getD_some]
    rw [if_pos (by simp [lookupCtx])]
    dsimp only
    rw [if_pos (by simp [lookupCtx])]
    exact ⟨rfl, rfl⟩

/-- The non-migration path of `load` re-points a dangling stored active
context at the default context, creating it empty when absent. -/
theorem loadNormal_dangling (ws : WorkspaceState) (stg : Storage) (a : String)
    (h1 : ws.bookmarkStorage = some stg) (h2 : ws.bookmarkActiveContext = some a)
    (h3 : lookupCtx stg a = none) :
    (loadNormal ws).state.activeContextId = DEFAULT_CONTEXT
    ∧ (loadNormal ws).state.storage
        = (if (lookupCtx stg DEFAULT_CONTEXT).isNone
           then setCtx stg DEFAULT_CONTEXT [] else stg) := by
  unfold loadNormal
  rw [h1, h2]
  simp only [Option.getD_some]
  rw [if_pos (by simp [h3])]
  by_cases hd : (lookupCtx stg DEFAULT_CONTEXT).isNone
  · rw [if_pos hd]
    exact ⟨rfl, rfl⟩
  · rw [if_neg hd]
    exact ⟨rfl, rfl⟩

/-- After the non-migration path the active context always exists. -/
theorem loadNormal_active_exists (ws : WorkspaceState) :
    (lookupCtx (loadNormal ws).state.storage (loadNormal ws).state.activeContextId).isSome := by
  unfold loadNormal
  dsimp only
  split
  · dsimp only
    split
    · rw [lookupCtx_setCtx_self]
      rfl
    · rename_i h
      simpa [Option.isSome_iff_ne_none] using h
  · rename_i h
    simpa [Option.isSome_iff_ne_none] using h

/-- C9: hydration.  (1) A non-empty legacy `bookmarks` entry is moved under
the default context id "default", the legacy entry is cleared, and the result
is persisted immediately.  (2) With no (or empty) legacy entry and a missing
or empty `bookmark-storage`, the store initializes with exactly one empty
default context.  (3) With a stored active-context id naming no context, the
active context falls back to "default", created empty exactly when absent,
with nothing persisted.  (4) In every case the active context id references an
existing context after hydration. -/
theorem C9_load (ws : WorkspaceState) :
    (∀ old, ws.bookmarks = some old → old ≠ [] →
        load ws = ⟨⟨[(DEFAULT_CONTEXT, old)], DEFAULT_CONTEXT, -1⟩,
          ⟨none, some [(DEFAULT_CONTEXT, old)], some DEFAULT_CONTEXT⟩, true⟩)
    ∧ ((ws.bookmarks = none ∨ ws.bookmarks = some []) →
        (ws.bookmarkStorage = none ∨ ws.bookmarkStorage = some []) →
        (load ws).state.storage = [(DEFAULT_CONTEXT, [])]
        ∧ (load ws).state.activeContextId = DEFAULT_CONTEXT)
    ∧ (∀ stg a, (ws.bookmarks = none ∨ ws.bookmarks = some []) →
        ws.bookmarkStorage = some stg → ws.bookmarkActiveContext = some a →
        lookupCtx stg a = none →
        (load ws).state.activeContextId = DEFAULT_CONTEXT
        ∧ (load ws).state.storage
            = (if (lookupCtx stg DEFAULT_CONTEXT).isNone
               then setCtx stg DEFAULT_CONTEXT [] else stg)
        ∧ (load ws).workspace = ws ∧ (load ws).persisted = false)
    ∧ (lookupCtx (load ws).state.storage (load ws).state.activeContextId).isSome := by
  have hload_normal : ∀ h : ws.bookmarks = none ∨ ws.bookmarks = some [],
      load ws = loadNormal ws := by
    intro h
    rcases h with h | h
    · unfold load
      rw [h]
    · unfold load
      rw [h]
      dsimp only
      rw [if_neg (by simp)]
  refine ⟨fun old h1 h2 => ?_, fun h1 h2 => ?_, fun stg a h1 h2 h3 h4 => ?_, ?_⟩
  · unfold load
    rw [h1]
    dsimp only
    rw [if_pos (List.length_pos.mpr h2)]
    rfl
  · rw [hload_normal h1]
    exact loadNormal_empty ws h2
  · rw [hload_normal h1]
    obtain ⟨ha, hs⟩ := loadNormal_dangling ws stg a h2 h3 h4
    exact ⟨ha, hs, rfl, rfl⟩
  · cases hb : ws.bookmarks with
    | none =>
        rw [hload_normal (Or.inl hb)]
        exact loadNormal_active_exists ws
    | some old =>
        cases old with
        | nil =>
            rw [hload_normal (Or.inr hb)]
            exact loadNormal_active_exists ws
        | cons x xs =>
            unfold load
            rw [hb]
            dsimp only
            rw [if_pos (by simp)]
            dsimp only
            rw [lookupCtx_setCtx_self]
            rfl

/-- C9 witness: hydrating from a non-empty legacy entry migrates it under
"default", clears the legacy key and persists immediately. -/
theorem C9_witness :
    load ⟨some [⟨"a", "f", 1, "A"⟩], none, none⟩
      = ⟨⟨[("default", [⟨"a", "f", 1, "A"⟩])], "default", -1⟩,
         ⟨none, some [("default", [⟨"a", "f", 1, "A"⟩])], some "default"⟩, true⟩ := by
  have h := (C9_load ⟨some [⟨"a", "f", 1, "A"⟩], none, none⟩).1
    [⟨"a", "f", 1, "A"⟩] rfl (by decide)
  exact h

end ContextualBookmarks
